import Mathlib

/-! Shallow embedding of the engineering-team repository (src/agents.py,
src/orchestrator.py, src/tools.py, src/main.py) and proofs about the
spec's claims.

Python dictionaries are modelled as association lists with
insertion-order update semantics (`updateAssoc` keeps the position of an
existing key).  Python `str.format` templates are modelled as token
lists (`TemplateTok.lit` / `TemplateTok.var`); a reference to a missing
keyword argument is a `KeyError`, mirroring `"...".format(requirements=r)`.
Strings are Lean `String`s; Python slicing/stripping is modelled on the
character list.
-/

namespace EngTeam

/-- Model of a Python `dict` lookup over an association list. -/
def lookupAssoc {α : Type} : List (String × α) → String → Option α
  | [], _ => none
  | (k', v) :: rest, k => if k' = k then some v else lookupAssoc rest k

/-- Model of a Python `dict` assignment `d[k] = v`: an existing key keeps
its position, a new key is appended (insertion order). -/
def updateAssoc {α : Type} : List (String × α) → String → α → List (String × α)
  | [], k, v => [(k, v)]
  | (k', v') :: rest, k, v =>
    if k' = k then (k, v) :: rest else (k', v') :: updateAssoc rest k v

theorem lookupAssoc_updateAssoc_self {α : Type} (l : List (String × α)) (k : String) (v : α) :
    lookupAssoc (updateAssoc l k v) k = some v := by
  induction l with
  | nil => simp [updateAssoc, lookupAssoc]
  | cons hd tl ih =>
    obtain ⟨k', v'⟩ := hd
    by_cases h : k' = k
    · simp [updateAssoc, lookupAssoc, h]
    · simp [updateAssoc, lookupAssoc, h, ih]

theorem lookupAssoc_updateAssoc_ne {α : Type} (l : List (String × α)) (k k' : String) (v : α)
    (h : k' ≠ k) : lookupAssoc (updateAssoc l k v) k' = lookupAssoc l k' := by
  have hne : ¬ k = k' := fun hh => h hh.symm
  induction l with
  | nil => simp [updateAssoc, lookupAssoc, hne]
  | cons hd tl ih =>
    obtain ⟨k0, v0⟩ := hd
    by_cases h0 : k0 = k
    · subst h0
      simp [updateAssoc, lookupAssoc, hne]
    · simp [updateAssoc, lookupAssoc, h0, ih]

theorem lookupAssoc_append_of_none {α : Type} (l1 l2 : List (String × α)) (k : String)
    (h : lookupAssoc l1 k = none) :
    lookupAssoc (l1 ++ l2) k = lookupAssoc l2 k := by
  induction l1 with
  | nil => simp
  | cons hd tl ih =>
    obtain ⟨k', v⟩ := hd
    by_cases hk : k' = k
    · simp [lookupAssoc, hk] at h
    · simp only [lookupAssoc, hk, if_false, List.cons_append] at h ⊢
      exact ih h

/-! ### Python string helpers (`str.strip`, slicing, `pathlib.Path(...).name`) -/

/-- The whitespace characters removed by Python `str.strip()` (ASCII part). -/
def pyIsSpace (c : Char) : Bool :=
  c = ' ' ∨ c = '\t' ∨ c = '\n' ∨ c = '\x0d' ∨ c = '\x0b' ∨ c = '\x0c'

/-- Python `s.lstrip()`. -/
def pyStripLeft (s : String) : String :=
  String.mk (s.toList.dropWhile pyIsSpace)

/-- Python `s.rstrip()`. -/
def pyStripRight (s : String) : String :=
  String.mk (((s.toList.reverse.dropWhile pyIsSpace)).reverse)

/-- Python `s.strip()`. -/
def pyStrip (s : String) : String :=
  pyStripRight (pyStripLeft s)

/-- Python `s[:n]` (slicing by code points). -/
def pySlice (s : String) (n : Nat) : String :=
  String.mk (s.toList.take n)

/-- Python `pathlib.Path(s).name`: the final path component (directory parts and
trailing separators stripped). -/
def pathName (s : String) : String :=
  ((s.splitOn "/").filter (fun c => c ≠ "")).getLastD ""

/-! ### Templates: model of Python `str.format` with keyword arguments -/

/-- One token of a format string: literal text or a `{variable}` reference. -/
inductive TemplateTok where
  | lit (s : String)
  | var (v : String)
deriving DecidableEq, Repr

/-- A format string, parsed into tokens (adjacent literals merged). -/
abbrev Template := List TemplateTok

/-- The keyword arguments passed to `format` (the run-scoped variables). -/
abbrev VarMap := List (String × String)

def lookupVar (vars : VarMap) (v : String) : Option String :=
  lookupAssoc vars v

/-- The variables referenced by a template. -/
def templateVars : Template → List String
  | [] => []
  | TemplateTok.lit _ :: rest => templateVars rest
  | TemplateTok.var v :: rest => v :: templateVars rest

/-- Python `t.format(**vars)`: substitute every variable, `KeyError` on a
reference that is not a bound keyword (never a silent blank). -/
def formatTemplate : Template → VarMap → Except String String
  | [], _ => .ok ""
  | TemplateTok.lit s :: rest, vars => (formatTemplate rest vars).map (fun r => s ++ r)
  | TemplateTok.var v :: rest, vars =>
    match lookupVar vars v with
    | none => .error ("KeyError: " ++ v)
    | some val => (formatTemplate rest vars).map (fun r => val ++ r)

/-- Python `str.strip()` on a template string: trims the leading whitespace of a
leading literal token (a variable reference stops the strip, as `\x7b` does
in Python). -/
def stripFirst : Template → Template
  | TemplateTok.lit s :: rest => TemplateTok.lit (pyStripLeft s) :: rest
  | t => t

/-- Trailing half of `str.strip()` on a template string. -/
def stripLast : Template → Template
  | [] => []
  | [TemplateTok.lit s] => [TemplateTok.lit (pyStripRight s)]
  | x :: rest => x :: stripLast rest

/-- The `template.strip()` call as performed on the raw YAML string before
formatting in `_build_instruction`. -/
def stripTemplate (t : Template) : Template :=
  stripLast (stripFirst t)

theorem templateVars_stripFirst (t : Template) :
    templateVars (stripFirst t) = templateVars t := by
  match t with
  | [] => rfl
  | TemplateTok.lit s :: rest => rfl
  | TemplateTok.var v :: rest => rfl

theorem templateVars_stripLast (t : Template) :
    templateVars (stripLast t) = templateVars t := by
  match t with
  | [] => rfl
  | [TemplateTok.lit s] => rfl
  | [TemplateTok.var v] => rfl
  | x :: y :: rest =>
    have ih := templateVars_stripLast (y :: rest)
    cases x with
    | lit s => simpa [stripLast, templateVars] using ih
    | var v => simpa [stripLast, templateVars] using ih

theorem templateVars_stripTemplate (t : Template) :
    templateVars (stripTemplate t) = templateVars t := by
  unfold stripTemplate
  rw [templateVars_stripLast, templateVars_stripFirst]

theorem formatTemplate_ok_iff (t : Template) (vars : VarMap) :
    (∃ s, formatTemplate t vars = .ok s) ↔
      ∀ v ∈ templateVars t, (lookupVar vars v).isSome := by
  induction t with
  | nil => simp [formatTemplate, templateVars]
  | cons hd rest ih =>
    cases hd with
    | lit s =>
      simp only [formatTemplate, templateVars]
      constructor
      · rintro ⟨r, hr⟩
        cases hfmt : formatTemplate rest vars with
        | error m => rw [hfmt] at hr; simp [Except.map] at hr
        | ok r' => exact ih.mp ⟨r', hfmt⟩
      · intro h
        obtain ⟨r, hr⟩ := ih.mpr h
        exact ⟨s ++ r, by rw [hr]; rfl⟩
    | var v =>
      simp only [formatTemplate, templateVars]
      constructor
      · rintro ⟨r, hr⟩
        intro w hw
        cases hlk : lookupVar vars v with
        | none => rw [hlk] at hr; simp at hr
        | some val =>
          rw [hlk] at hr
          rcases List.mem_cons.mp hw with rfl | hw'
          · simp [hlk]
          · cases hfmt : formatTemplate rest vars with
            | error m => rw [hfmt] at hr; simp [Except.map] at hr
            | ok r' => exact (ih.mp ⟨r', hfmt⟩) w hw'
      · intro h
        have hv : (lookupVar vars v).isSome := h v (by simp)
        cases hlk : lookupVar vars v with
        | none => rw [hlk] at hv; simp at hv
        | some val =>
          obtain ⟨r, hr⟩ := ih.mpr (fun w hw => h w (List.mem_cons_of_mem _ hw))
          refine ⟨val ++ r, ?_⟩
          simp [hlk, hr, Except.map]

theorem formatTemplate_error_of_unbound (t : Template) (vars : VarMap) (v : String)
    (hv : v ∈ templateVars t) (hu : lookupVar vars v = none) :
    ∃ m, formatTemplate t vars = .error m := by
  cases hfmt : formatTemplate t vars with
  | error m => exact ⟨m, rfl⟩
  | ok s =>
    have := (formatTemplate_ok_iff t vars).mp ⟨s, hfmt⟩ v hv
    rw [hu] at this
    simp at this

/-! ### Configuration records (agents.yaml / tasks.yaml entries) -/

/-- One record of `agents.yaml` (a worker specification).  Template-valued
fields are format strings over the run variables. -/
structure AgentConfig where
  role : Option Template := none
  goal : Option Template := none
  backstory : Option Template := none
  tools : List String := []
  custom_tools_module : Option String := none
  model : Option String := none
  output_key : Option String := none
deriving Repr

/-- One record of `tasks.yaml` (a task specification). -/
structure TaskConfig where
  description : Option Template := none
  expected_output : Option Template := none
  output_file : Option Template := none
  agent : Option String := none
deriving Repr

/-! ### Tools (`src/tools.py` registry and custom-module loading) -/

/-- A resolved callable capability: either a function of the built-in
`TOOL_REGISTRY` or a callable harvested from a custom module. -/
inductive Tool where
  | builtin (toolName : String)
  | custom (moduleName : String) (toolName : String)
deriving DecidableEq, Repr

/-- A module attribute as seen by `dir(module)` / `getattr`. -/
structure PyModuleAttr where
  isCallable : Bool
  asTool : Tool
deriving DecidableEq, Repr

/-- The importable modules of the environment: `importlib.import_module`
returns the module's attributes, or fails (`ImportError`) when the module
reference is absent.  (`dir()` enumeration order only affects iteration
order of the harvested mapping, not the name-to-tool mapping itself, so it
is not modelled.) -/
abbrev ImportEnv := List (String × List (String × PyModuleAttr))

/-- The registry `TOOL_REGISTRY` of agents.py, mapping the name
`save_to_file` to the built-in persistence tool. -/
def TOOL_REGISTRY : List (String × Tool) :=
  [("save_to_file", Tool.builtin "save_to_file")]

/-- Mutable factory state: the `custom_tools_cache` dict, plus a counter of
actual imports performed (to state the no-re-import property). -/
structure FactoryState where
  cache : List (String × List (String × Tool))
  importCount : Nat
deriving DecidableEq, Repr

/-- Python `name.startswith('_')`: the first character is an underscore. -/
def startsWithUnderscore (s : String) : Bool :=
  match s.toList with
  | [] => false
  | c :: _ => c = '_'

/-- Extract all public callables of a module
(`for name in dir(module): if not name.startswith('_') and callable(...)`). -/
def harvestModule (attrs : List (String × PyModuleAttr)) : List (String × Tool) :=
  attrs.filterMap (fun p =>
    if startsWithUnderscore p.1 = false ∧ p.2.isCallable then some (p.1, p.2.asTool) else none)

/-- Source `AgentFactory._load_custom_tools`: return the cached tool set when the
module was loaded before, otherwise import, harvest and cache it. -/
def loadCustomTools (env : ImportEnv) (st : FactoryState) (moduleName : String) :
    Except String (List (String × Tool) × FactoryState) :=
  match lookupAssoc st.cache moduleName with
  | some tools => .ok (tools, st)
  | none =>
    match lookupAssoc env moduleName with
    | none =>
      .error ("Failed to import custom tools module " ++ moduleName)
    | some attrs =>
      let tools := harvestModule attrs
      .ok (tools, { cache := st.cache ++ [(moduleName, tools)],
                    importCount := st.importCount + 1 })

/-- The per-name resolution loop of `AgentFactory._resolve_tools`: custom
tools shadow the built-in registry; an unknown name raises. -/
def resolveNames (customTools : List (String × Tool)) : List String → Except String (List Tool)
  | [] => .ok []
  | n :: rest =>
    match lookupAssoc customTools n with
    | some t => (resolveNames customTools rest).map (fun ts => t :: ts)
    | none =>
      match lookupAssoc TOOL_REGISTRY n with
      | some t => (resolveNames customTools rest).map (fun ts => t :: ts)
      | none => .error ("Tool " ++ n ++ " not found in TOOL_REGISTRY or custom tools module")

/-- Source `AgentFactory._resolve_tools`: optionally load the custom module, then
resolve each requested name. -/
def resolveTools (env : ImportEnv) (st : FactoryState) (toolNames : List String)
    (customModule : Option String) : Except String (List Tool × FactoryState) :=
  match customModule with
  | none => (resolveNames [] toolNames).map (fun ts => (ts, st))
  | some m =>
    match loadCustomTools env st m with
    | .error e => .error e
    | .ok (customTools, st') => (resolveNames customTools toolNames).map (fun ts => (ts, st'))

/-! ### Instruction building (`AgentFactory._build_instruction`) -/

/-- The keyword arguments the factory passes to `format`:
always exactly `\x7brequirements: ...\x7d`. -/
def varMapOf (requirements : String) : VarMap :=
  [("requirements", requirements)]

/-- Render one optional config field: `field.strip().format(requirements=...)`
when the field is present. -/
def renderField (f : Option Template) (requirements : String) : Except String (Option String) :=
  match f with
  | none => .ok none
  | some tpl => (formatTemplate (stripTemplate tpl) (varMapOf requirements)).map some

/-- Source `AgentFactory._build_instruction`: collect the present sections in the
fixed order (backstory, role, goal, task description, expected output,
save-to-file directive) and join them with a newline.  The caller
(`create_agent`) has already looked the two config records up by name. -/
def buildInstruction (ac : AgentConfig) (tc : TaskConfig) (requirements : String) :
    Except String String :=
  match renderField ac.backstory requirements with
  | .error m => .error m
  | .ok backstory? =>
  match renderField ac.role requirements with
  | .error m => .error m
  | .ok role? =>
  match renderField ac.goal requirements with
  | .error m => .error m
  | .ok goal? =>
  match renderField tc.description requirements with
  | .error m => .error m
  | .ok description? =>
  match renderField tc.expected_output requirements with
  | .error m => .error m
  | .ok expected? =>
  match renderField tc.output_file requirements with
  | .error m => .error m
  | .ok outputFile? =>
    let parts : List String :=
      backstory?.toList
      ++ (role?.map (fun s => "\nYour role: " ++ s)).toList
      ++ (goal?.map (fun s => "\nYour goal: " ++ s)).toList
      ++ (description?.map (fun s => "\nTask: " ++ s)).toList
      ++ (expected?.map (fun s => "\nExpected output: " ++ s)).toList
      ++ (outputFile?.map (fun s =>
            "\n\nWhen you complete your work, save it using the save_to_file tool with filename \"" ++ pathName s ++ "\".")).toList
    .ok (String.intercalate "\n" parts)

/-- All template fields the instruction builder renders, with presence
determined per field (spec order). -/
def presentTemplates (ac : AgentConfig) (tc : TaskConfig) : List Template :=
  ac.backstory.toList ++ ac.role.toList ++ ac.goal.toList
    ++ tc.description.toList ++ tc.expected_output.toList ++ tc.output_file.toList

/-! Definitions written from the spec's words (section 4.2), for the
refinement comparison of claim C4: an ordered concatenation of sections,
each built from a rendered field; with `keepEmpty = false` a
present-but-empty field contributes no section (the claim's
"present-and-non-empty"), with `keepEmpty = true` every present field
contributes its section. -/

/-- The six section constructors of the spec, in the spec's fixed order. -/
def sectionMk : List (String → String) :=
  [ fun s => s,
    fun s => "\nYour role: " ++ s,
    fun s => "\nYour goal: " ++ s,
    fun s => "\nTask: " ++ s,
    fun s => "\nExpected output: " ++ s,
    fun s => "\n\nWhen you complete your work, save it using the save_to_file tool with filename \"" ++ pathName s ++ "\"." ]

/-- Render all six fields in order (spec-side regrouping of the same
renders the source performs). -/
def renderAll (ac : AgentConfig) (tc : TaskConfig) (requirements : String) :
    Except String (List (Option String)) :=
  match renderField ac.backstory requirements with
  | .error m => .error m
  | .ok b? =>
  match renderField ac.role requirements with
  | .error m => .error m
  | .ok r? =>
  match renderField ac.goal requirements with
  | .error m => .error m
  | .ok g? =>
  match renderField tc.description requirements with
  | .error m => .error m
  | .ok d? =>
  match renderField tc.expected_output requirements with
  | .error m => .error m
  | .ok e? =>
  match renderField tc.output_file requirements with
  | .error m => .error m
  | .ok o? => .ok [b?, r?, g?, d?, e?, o?]

/-- Spec section 4.2: the ordered sections; an absent field is omitted,
and with `keepEmpty = false` an empty rendered field is omitted too. -/
def specSections (keepEmpty : Bool) (fields : List (Option String)) : List String :=
  (List.zip sectionMk fields).foldr
    (fun mkf acc =>
      match mkf.2 with
      | none => acc
      | some s => if s = "" ∧ keepEmpty = false then acc else mkf.1 s :: acc) []

/-- The spec's `InstructionBuilder.build`, parametrised by whether
present-but-empty fields are kept. -/
def specInstruction (keepEmpty : Bool) (ac : AgentConfig) (tc : TaskConfig)
    (requirements : String) : Except String String :=
  (renderAll ac tc requirements).map (fun fields =>
    String.intercalate "\n" (specSections keepEmpty fields))

/-! ### Worker creation (`AgentFactory.create_agent` / `create_all_agents`) -/

/-- A resolved `google.adk.agents.Agent` as constructed by `create_agent`. -/
structure Agent where
  name : String
  model : String
  description : String
  instruction : String
  tools : List Tool
  output_key : String
deriving DecidableEq, Repr

/-- Source `AgentFactory.create_agent`: check both names, render the description
from the role, build the instruction, resolve the tools, and fill in the
model and output-key defaults. -/
def createAgent (env : ImportEnv) (st : FactoryState)
    (agentsConfig : List (String × AgentConfig)) (tasksConfig : List (String × TaskConfig))
    (agentName taskName requirements : String) : Except String (Agent × FactoryState) :=
  match lookupAssoc agentsConfig agentName with
  | none => .error ("Agent " ++ agentName ++ " not found in agents configuration")
  | some ac =>
    match lookupAssoc tasksConfig taskName with
    | none => .error ("Task " ++ taskName ++ " not found in tasks configuration")
    | some tc =>
      match formatTemplate (stripTemplate (ac.role.getD [])) (varMapOf requirements) with
      | .error m => .error m
      | .ok description =>
        match buildInstruction ac tc requirements with
        | .error m => .error m
        | .ok instruction =>
          match resolveTools env st ac.tools ac.custom_tools_module with
          | .error m => .error m
          | .ok (tools, st') =>
            .ok ({ name := agentName,
                   model := ac.model.getD "gemini-2.0-flash-exp",
                   description := description,
                   instruction := instruction,
                   tools := tools,
                   output_key := ac.output_key.getD agentName }, st')

/-- The agent-task mapping loop of `create_all_agents`: scan tasks.yaml in
order, and for each task that carries an `agent` field, assign
`mapping[agent] = task` (a Python dict assignment: last write wins). -/
def agentTaskMapping (tasksConfig : List (String × TaskConfig)) : List (String × String) :=
  tasksConfig.foldl
    (fun m p =>
      match p.2.agent with
      | some agentName => updateAssoc m agentName p.1
      | none => m) []

/-- The creation loop of `create_all_agents`, threading the factory state
and building the `agents` dict. -/
def createAgentsLoop (env : ImportEnv)
    (agentsConfig : List (String × AgentConfig)) (tasksConfig : List (String × TaskConfig))
    (requirements : String) :
    List (String × String) → List (String × Agent) → FactoryState →
    Except String (List (String × Agent) × FactoryState)
  | [], acc, st => .ok (acc, st)
  | (agentName, taskName) :: rest, acc, st =>
    match createAgent env st agentsConfig tasksConfig agentName taskName requirements with
    | .error m => .error m
    | .ok (ag, st') =>
      createAgentsLoop env agentsConfig tasksConfig requirements rest
        (updateAssoc acc agentName ag) st'

/-- Source `AgentFactory.create_all_agents`: derive the agent-task mapping from
tasks.yaml, then create every mapped agent. -/
def createAllAgents (env : ImportEnv) (st : FactoryState)
    (agentsConfig : List (String × AgentConfig)) (tasksConfig : List (String × TaskConfig))
    (requirements : String) : Except String (List (String × Agent) × FactoryState) :=
  createAgentsLoop env agentsConfig tasksConfig requirements
    (agentTaskMapping tasksConfig) [] st

/-! ### Workflow composition (`EngineeringTeam.__init__`) -/

/-- An ADK workflow node: a leaf `Agent`, a `ParallelAgent`, or a
`SequentialAgent` (each group with its `name` and `sub_agents`). -/
inductive WorkflowNode where
  | leafAgent (a : Agent)
  | parallelGroup (groupName : String) (subs : List WorkflowNode)
  | sequentialGroup (groupName : String) (subs : List WorkflowNode)

/-- Source `EngineeringTeam.__init__` after `create_all_agents`: index the four
fixed worker names out of the agents dict (a missing key is a Python
`KeyError`), build the parallel implementation team and wrap it with the
lead in the overall sequential workflow. -/
def mkEngineeringTeam (agentsDict : List (String × Agent)) : Except String WorkflowNode :=
  match lookupAssoc agentsDict "engineering_lead" with
  | none => .error "KeyError: engineering_lead"
  | some lead =>
  match lookupAssoc agentsDict "backend_engineer" with
  | none => .error "KeyError: backend_engineer"
  | some backend =>
  match lookupAssoc agentsDict "frontend_engineer" with
  | none => .error "KeyError: frontend_engineer"
  | some frontend =>
  match lookupAssoc agentsDict "test_engineer" with
  | none => .error "KeyError: test_engineer"
  | some test =>
    .ok (WorkflowNode.sequentialGroup "engineering_team"
      [ WorkflowNode.leafAgent lead,
        WorkflowNode.parallelGroup "implementation_team"
          [ WorkflowNode.leafAgent backend,
            WorkflowNode.leafAgent frontend,
            WorkflowNode.leafAgent test ] ])

/-- A phase of the spec's phase graph. -/
inductive Phase where
  | sequentialPhase (w : Agent)
  | parallelPhase (ws : List Agent)

/-- The worker directly held by a leaf node. -/
def leafOf : WorkflowNode → Option Agent
  | WorkflowNode.leafAgent a => some a
  | _ => none

/-- View one child of the top-level workflow as a phase. -/
def nodePhase : WorkflowNode → Phase
  | WorkflowNode.leafAgent a => Phase.sequentialPhase a
  | WorkflowNode.parallelGroup _ subs => Phase.parallelPhase (subs.filterMap leafOf)
  | WorkflowNode.sequentialGroup _ _ => Phase.parallelPhase []

/-- The phase list of the composed workflow (the children of the top-level
`SequentialAgent`; nested sequential groups never occur in the composed
team). -/
def topPhases : WorkflowNode → List Phase
  | WorkflowNode.sequentialGroup _ subs => subs.map nodePhase
  | n => [nodePhase n]

/-! ### The run loop (`EngineeringTeam.run`) -/

/-- A function-call content part's payload. -/
structure FunctionCall where
  name : String
  args : List (String × String)
deriving DecidableEq, Repr

/-- One content part of an ADK event: optionally a function call,
optionally text. -/
structure Part where
  function_call : Option FunctionCall := none
  text : Option String := none
deriving DecidableEq, Repr

/-- One event of the run's stream: the emitting agent's name (absent or
`None` collapse to `none`), the content's parts when content is present,
and whether `is_final_response()` holds. -/
structure Event where
  agent_name : Option String := none
  content : Option (List Part) := none
  is_final : Bool := false
deriving DecidableEq, Repr

/-- The header-emission loop of `EngineeringTeam.run`: track the
`current_agent` cursor, and emit a section header exactly when an event
carries a non-empty agent name different from the cursor. -/
def emitHeadersAux (cursor : Option String) : List Event → List String
  | [] => []
  | e :: rest =>
    match e.agent_name with
    | none => emitHeadersAux cursor rest
    | some s =>
      if s = "" then emitHeadersAux cursor rest
      else if some s = cursor then emitHeadersAux (some s) rest
      else s :: emitHeadersAux (some s) rest

/-- The headers emitted over a whole event stream (cursor starts as
`None`). -/
def emitHeaders (events : List Event) : List String :=
  emitHeadersAux none events

/-- The non-empty agent names of a stream, in order (the events the header
logic reacts to). -/
def headerNames (events : List Event) : List String :=
  events.filterMap (fun e =>
    match e.agent_name with
    | none => none
    | some s => if s = "" then none else some s)

/-- The final-result capture loop of `EngineeringTeam.run`:
`if event.is_final_response() and event.content: final_result =
event.content.parts[0].text` — indexing `parts[0]` of an empty parts list
is a Python `IndexError`. -/
def captureFinal (acc : Option String) : List Event → Except String (Option String)
  | [] => .ok acc
  | e :: rest =>
    if e.is_final then
      match e.content with
      | none => captureFinal acc rest
      | some [] => .error "IndexError: list index out of range"
      | some (p :: _) => captureFinal p.text rest
    else captureFinal acc rest

/-- The result of `EngineeringTeam.run`. -/
structure RunResult where
  status : String
  final_output : Option String
deriving DecidableEq, Repr

/-- The result assembly of `EngineeringTeam.run`: consume the stream,
then return `\x7b'status': 'completed', 'final_output': final_result\x7d`. -/
def runWorkflow (events : List Event) : Except String RunResult :=
  match captureFinal none events with
  | .error m => .error m
  | .ok fin => .ok { status := "completed", final_output := fin }

/-- Spec side: the last terminal event carrying content. -/
def lastTerminalContentEvent (events : List Event) : Option Event :=
  events.reverse.find? (fun e => e.is_final && e.content.isSome)

/-- Spec side: the first part of `e`'s content that carries text
("its first text part"). -/
def firstTextPart (e : Event) : Option String :=
  (e.content.getD []).findSome? (fun p => p.text)

/-- The text-preview rendering of `EngineeringTeam.run` (lines 186-191):
rendered only for parts whose text is present, truthy and non-blank after
stripping; the preview is the stripped text sliced to 100 characters, with
`"..."` appended when the raw text is longer than 100 characters. -/
def textPreview (text? : Option String) : Option String :=
  match text? with
  | none => none
  | some t =>
    if t ≠ "" ∧ 0 < (pyStrip t).length then
      some (pySlice (pyStrip t) 100 ++ (if 100 < t.length then "..." else ""))
    else none

/-- The preview as the claim words it: the text truncated to the budget,
ellipsis exactly when the text exceeds the budget (no stripping). -/
def claimPreview (text? : Option String) : Option String :=
  match text? with
  | none => none
  | some t =>
    if t ≠ "" ∧ 0 < (pyStrip t).length then
      some (pySlice t 100 ++ (if 100 < t.length then "..." else ""))
    else none

/-! ### Claims C5 and C6: tool resolution and the custom-module cache -/

/-- Spec section 4.1: prefer a capability of the custom module under the
requested name, otherwise fall back to the built-in registry. -/
def prefLookup (customTools : List (String × Tool)) (n : String) : Option Tool :=
  match lookupAssoc customTools n with
  | some t => some t
  | none => lookupAssoc TOOL_REGISTRY n

/-- C5: for every requested name list, resolution returns, for each name in
declared order, the custom module's capability when one exists under that
name and otherwise the built-in registry's; it fails with an
unknown-capability error exactly when some requested name is present in
neither source. -/
theorem c5_tool_resolution (customTools : List (String × Tool)) (names : List String) :
    (∀ ts, names.mapM (prefLookup customTools) = some ts →
        resolveNames customTools names = Except.ok ts)
    ∧ ((∃ n ∈ names, prefLookup customTools n = none) ↔
        ∃ msg, resolveNames customTools names = Except.error msg) := by
  induction names with
  | nil =>
    refine ⟨fun ts hts => ?_, ?_⟩
    · simp only [List.mapM_nil, pure, Option.some.injEq] at hts
      rw [← hts]; rfl
    · constructor
      · rintro ⟨n, hn, _⟩
        exact absurd hn (List.not_mem_nil n)
      · rintro ⟨msg, hmsg⟩
        simp [resolveNames] at hmsg
  | cons n rest ih =>
    cases hp : prefLookup customTools n with
    | some t =>
      have hres : resolveNames customTools (n :: rest) =
          (resolveNames customTools rest).map (fun ts => t :: ts) := by
        unfold prefLookup at hp
        cases hc : lookupAssoc customTools n with
        | some t' =>
          rw [hc] at hp
          simp only [Option.some.injEq] at hp
          subst hp
          simp [resolveNames, hc]
        | none =>
          rw [hc] at hp
          cases hr : lookupAssoc TOOL_REGISTRY n with
          | some t' =>
            rw [hr] at hp
            simp only [Option.some.injEq] at hp
            subst hp
            simp [resolveNames, hc, hr]
          | none => rw [hr] at hp; exact absurd hp (by simp)
      refine ⟨fun ts hts => ?_, ?_⟩
      · simp only [List.mapM_cons, hp, Option.bind_eq_bind, Option.some_bind] at hts
        cases hrest : rest.mapM (prefLookup customTools) with
        | none => rw [hrest] at hts; simp at hts
        | some xs =>
          rw [hrest] at hts
          simp only [Option.some_bind, pure, Option.some.injEq] at hts
          rw [hres, ih.1 xs hrest, ← hts]
          rfl
      · constructor
        · rintro ⟨n', hn', hnone⟩
          rcases List.mem_cons.mp hn' with rfl | hmem
          · rw [hp] at hnone; exact absurd hnone (by simp)
          · obtain ⟨msg, hmsg⟩ := ih.2.mp ⟨n', hmem, hnone⟩
            exact ⟨msg, by rw [hres, hmsg]; rfl⟩
        · rintro ⟨msg, hmsg⟩
          rw [hres] at hmsg
          cases hrest : resolveNames customTools rest with
          | error m =>
            obtain ⟨n', hn', hnone⟩ := ih.2.mpr ⟨m, hrest⟩
            exact ⟨n', List.mem_cons_of_mem _ hn', hnone⟩
          | ok xs => rw [hrest] at hmsg; simp [Except.map] at hmsg
    | none =>
      have hres : ∃ msg, resolveNames customTools (n :: rest) = Except.error msg := by
        unfold prefLookup at hp
        cases hc : lookupAssoc customTools n with
        | some t' => rw [hc] at hp; exact absurd hp (by simp)
        | none =>
          rw [hc] at hp
          cases hr : lookupAssoc TOOL_REGISTRY n with
          | some t' => rw [hr] at hp; exact absurd hp (by simp)
          | none =>
            exact ⟨"Tool " ++ n ++ " not found in TOOL_REGISTRY or custom tools module",
              by simp [resolveNames, hc, hr]⟩
      refine ⟨fun ts hts => ?_, ?_⟩
      · simp only [List.mapM_cons, hp, Option.bind_eq_bind, Option.none_bind] at hts
        exact absurd hts (by simp)
      · exact ⟨fun _ => hres, fun _ => ⟨n, by simp, hp⟩⟩

/-- Witness for C5 at a concrete input: a name present in both sources
resolves to the custom module's capability. -/
theorem c5_witness :
    resolveNames [("save_to_file", Tool.custom "mymod" "save_to_file")] ["save_to_file"] =
      Except.ok [Tool.custom "mymod" "save_to_file"] :=
  (c5_tool_resolution [("save_to_file", Tool.custom "mymod" "save_to_file")]
    ["save_to_file"]).1 [Tool.custom "mymod" "save_to_file"] (by rfl)

/-- C6: once a custom module has been loaded, a second load through the
resolver is a cache hit: it returns the very entry stored in the cache and
leaves the factory state (in particular the import counter) unchanged —
no re-import happens and the same tool set is handed back. -/
theorem c6_cache_idempotent (env : ImportEnv) (st : FactoryState) (moduleName : String)
    (tools : List (String × Tool)) (st1 : FactoryState)
    (h : loadCustomTools env st moduleName = Except.ok (tools, st1)) :
    loadCustomTools env st1 moduleName = Except.ok (tools, st1)
      ∧ lookupAssoc st1.cache moduleName = some tools := by
  unfold loadCustomTools at h
  cases hc : lookupAssoc st.cache moduleName with
  | some cached =>
    rw [hc] at h
    simp only [Except.ok.injEq, Prod.mk.injEq] at h
    obtain ⟨h1, h2⟩ := h
    subst h1
    subst h2
    exact ⟨by simp [loadCustomTools, hc], hc⟩
  | none =>
    rw [hc] at h
    cases he : lookupAssoc env moduleName with
    | none => rw [he] at h; exact absurd h (by simp)
    | some attrs =>
      rw [he] at h
      simp only [Except.ok.injEq, Prod.mk.injEq] at h
      obtain ⟨h1, h2⟩ := h
      subst h1
      subst h2
      have hlook : lookupAssoc (st.cache ++ [(moduleName, harvestModule attrs)]) moduleName =
          some (harvestModule attrs) := by
        rw [lookupAssoc_append_of_none _ _ _ hc]
        simp [lookupAssoc]
      exact ⟨by simp [loadCustomTools, hlook], hlook⟩

/-- Witness for C6 at a concrete input: loading module `mymod` once and
then again returns the identical cached entry with the import counter
still 1. -/
theorem c6_witness :
    loadCustomTools [("mymod", [("tool_a", ⟨true, Tool.custom "mymod" "tool_a"⟩)])]
        ⟨[("mymod", [("tool_a", Tool.custom "mymod" "tool_a")])], 1⟩ "mymod" =
      Except.ok ([("tool_a", Tool.custom "mymod" "tool_a")],
        ⟨[("mymod", [("tool_a", Tool.custom "mymod" "tool_a")])], 1⟩) :=
  (c6_cache_idempotent [("mymod", [("tool_a", ⟨true, Tool.custom "mymod" "tool_a"⟩)])]
    ⟨[], 0⟩ "mymod" [("tool_a", Tool.custom "mymod" "tool_a")]
    ⟨[("mymod", [("tool_a", Tool.custom "mymod" "tool_a")])], 1⟩ (by rfl)).1

/-! ### Claim C7: progress-header coalescing -/

theorem headerNames_cons (e : Event) (rest : List Event) :
    headerNames (e :: rest) =
      match e.agent_name with
      | none => headerNames rest
      | some s => if s = "" then headerNames rest else s :: headerNames rest := by
  cases hn : e.agent_name with
  | none => simp [headerNames, List.filterMap_cons, hn]
  | some s =>
    by_cases hs : s = "" <;> simp [headerNames, List.filterMap_cons, hn, hs]

theorem destutter'_ne_head (l : List String) (a : String) :
    List.destutter' (· ≠ ·) a l = a :: (List.destutter' (· ≠ ·) a l).tail := by
  induction l generalizing a with
  | nil => rfl
  | cons b l ih =>
    by_cases h : a ≠ b
    · rw [List.destutter'_cons_pos _ h]
      simp
    · rw [List.destutter'_cons_neg _ h]
      exact ih a

theorem emitHeadersAux_eq_destutter' (events : List Event) : ∀ a : String,
    emitHeadersAux (some a) events = (List.destutter' (· ≠ ·) a (headerNames events)).tail := by
  induction events with
  | nil => intro a; rfl
  | cons e rest ih =>
    intro a
    cases hn : e.agent_name with
    | none => simp [emitHeadersAux, hn, headerNames_cons, ih]
    | some s =>
      by_cases hs : s = ""
      · simp [emitHeadersAux, hn, hs, headerNames_cons, ih]
      · by_cases hsa : s = a
        · subst hsa
          have hnot : ¬ (s ≠ s) := by simp
          simp [emitHeadersAux, hn, hs, headerNames_cons,
            List.destutter'_cons_neg _ hnot, ih s]
        · have hne : a ≠ s := fun hh => hsa hh.symm
          have hcur : ¬ (some s = some a) := by simp [hsa]
          simp only [emitHeadersAux, hn, headerNames_cons]
          rw [if_neg hs, if_neg hcur, if_neg hs, List.destutter'_cons_pos _ hne,
            List.tail_cons, ih s, ← destutter'_ne_head]

/-- C7: a worker section header is emitted exactly when an event carries a
worker name different from the current-worker cursor — the emitted header
sequence is the consecutive-deduplication (`destutter (≠)`) of the event
stream's worker names, hence never repeats a header for consecutive events
of the same worker — and the synthetic stream `[A, A, B, A]` produces
exactly the three headers `A, B, A`. -/
theorem c7_header_coalescing :
    (∀ events : List Event,
        emitHeaders events = (headerNames events).destutter (· ≠ ·))
    ∧ (∀ events : List Event, (emitHeaders events).Chain' (· ≠ ·))
    ∧ emitHeaders
        [ { agent_name := some "A" }, { agent_name := some "A" },
          { agent_name := some "B" }, { agent_name := some "A" } ] = ["A", "B", "A"] := by
  have hmain : ∀ events : List Event,
      emitHeaders events = (headerNames events).destutter (· ≠ ·) := by
    intro events
    induction events with
    | nil => rfl
    | cons e rest ih =>
      cases hn : e.agent_name with
      | none =>
        simp only [emitHeaders, emitHeadersAux, hn, headerNames_cons]
        exact ih
      | some s =>
        by_cases hs : s = ""
        · subst hs
          simp only [emitHeaders] at ih
          simp [emitHeaders, emitHeadersAux, hn, headerNames_cons, ih]
        · have hcur : ¬ (some s = none) := by simp
          simp only [emitHeaders, emitHeadersAux, hn, headerNames_cons]
          rw [if_neg hs, if_neg hcur, if_neg hs, List.destutter_cons',
            emitHeadersAux_eq_destutter', ← destutter'_ne_head]
  refine ⟨hmain, fun events => ?_, by rfl⟩
  rw [hmain]
  exact List.destutter_is_chain' _ _

/-! ### Claim C9: bounded text preview -/

/-- C9 counterexample: for the part text `" hi"`, the code renders the
stripped text `"hi"`, while the claim ("the text truncated to the budget")
predicts `" hi"` — the two previews differ at this concrete input. -/
theorem c9_counterexample :
    textPreview (some " hi") = some "hi"
    ∧ claimPreview (some " hi") = some " hi"
    ∧ ("hi" : String) ≠ " hi" := by
  refine ⟨by rfl, by rfl, by decide⟩

/-- C9 amended: for every rendered plain-text part, the displayed preview
is the *stripped* text truncated to the 100-character budget, with the
ellipsis marker appended exactly when the raw (unstripped) text exceeds
the budget. -/
theorem c9_preview_amended (t : String) (h1 : t ≠ "") (h2 : 0 < (pyStrip t).length) :
    textPreview (some t) =
      some (pySlice (pyStrip t) 100 ++ (if 100 < t.length then "..." else "")) := by
  simp [textPreview, h1, h2]

/-- Witness for C9 at a concrete input. -/
theorem c9_witness : textPreview (some "hello") = some "hello" :=
  (c9_preview_amended "hello" (by decide) (by decide)).trans (by rfl)

/-! ### Claim C4: instruction section assembly -/

/-- C4 counterexample: a worker spec whose `role` field is present but
empty.  The code still emits the `"Your role:"` header (only *absence* is
checked), while the claim's "present-and-non-empty" assembly omits the
section — the two instructions differ at this concrete input. -/
theorem c4_counterexample :
    buildInstruction { role := some [TemplateTok.lit ""] } {} "req" =
        Except.ok "\nYour role: "
    ∧ specInstruction false { role := some [TemplateTok.lit ""] } {} "req" =
        Except.ok ""
    ∧ ("\nYour role: " : String) ≠ "" := by
  refine ⟨by rfl, by rfl, by decide⟩

/-- C4 amended: for every worker spec, task spec and requirements value,
the built instruction is the newline-join of exactly the *present*
sections, in the fixed order backstory, role, goal, task description,
expected output, persistence directive (with the artifact's base
filename); absent fields are omitted entirely, while a present-but-empty
field still contributes its (empty-bodied) section. -/
theorem c4_instruction_sections (ac : AgentConfig) (tc : TaskConfig) (requirements : String) :
    buildInstruction ac tc requirements = specInstruction true ac tc requirements := by
  unfold buildInstruction specInstruction renderAll
  cases hb : renderField ac.backstory requirements with
  | error m => rfl
  | ok b? =>
  cases hr : renderField ac.role requirements with
  | error m => rfl
  | ok r? =>
  cases hg : renderField ac.goal requirements with
  | error m => rfl
  | ok g? =>
  cases hd : renderField tc.description requirements with
  | error m => rfl
  | ok d? =>
  cases he : renderField tc.expected_output requirements with
  | error m => rfl
  | ok e? =>
  cases ho : renderField tc.output_file requirements with
  | error m => rfl
  | ok o? =>
    simp only [Except.map, Except.ok.injEq]
    congr 1
    cases b? <;> cases r? <;> cases g? <;> cases d? <;> cases e? <;> cases o? <;>
      simp [specSections, sectionMk]

/-! ### Claim C3: missing template variables are build-time errors -/

theorem renderField_ok_format (f : Option Template) (req : String) (x : Option String)
    (tpl : Template) (hok : renderField f req = .ok x) (hf : f = some tpl) :
    ∃ r, formatTemplate (stripTemplate tpl) (varMapOf req) = .ok r := by
  subst hf
  cases hfmt : formatTemplate (stripTemplate tpl) (varMapOf req) with
  | error m =>
    rw [show renderField (some tpl) req =
          Except.map some (formatTemplate (stripTemplate tpl) (varMapOf req)) from rfl,
        hfmt] at hok
    exact absurd hok (by simp [Except.map])
  | ok r => exact ⟨r, rfl⟩

theorem buildInstruction_ok_renders (ac : AgentConfig) (tc : TaskConfig)
    (req : String) (s : String) (hok : buildInstruction ac tc req = .ok s) :
    ∀ tpl ∈ presentTemplates ac tc,
      ∃ r, formatTemplate (stripTemplate tpl) (varMapOf req) = .ok r := by
  intro tpl hmem
  unfold buildInstruction at hok
  cases hb : renderField ac.backstory req with
  | error m => rw [hb] at hok; exact absurd hok (by simp)
  | ok b? =>
  rw [hb] at hok
  cases hr : renderField ac.role req with
  | error m => rw [hr] at hok; exact absurd hok (by simp)
  | ok r? =>
  rw [hr] at hok
  cases hg : renderField ac.goal req with
  | error m => rw [hg] at hok; exact absurd hok (by simp)
  | ok g? =>
  rw [hg] at hok
  cases hd : renderField tc.description req with
  | error m => rw [hd] at hok; exact absurd hok (by simp)
  | ok d? =>
  rw [hd] at hok
  cases he : renderField tc.expected_output req with
  | error m => rw [he] at hok; exact absurd hok (by simp)
  | ok e? =>
  rw [he] at hok
  cases ho : renderField tc.output_file req with
  | error m => rw [ho] at hok; exact absurd hok (by simp)
  | ok o? =>
  simp only [presentTemplates, List.mem_append] at hmem
  rcases hmem with ((((h1 | h2) | h3) | h4) | h5) | h6
  · exact renderField_ok_format _ _ _ _ hb (Option.mem_def.mp (Option.mem_toList.mp h1))
  · exact renderField_ok_format _ _ _ _ hr (Option.mem_def.mp (Option.mem_toList.mp h2))
  · exact renderField_ok_format _ _ _ _ hg (Option.mem_def.mp (Option.mem_toList.mp h3))
  · exact renderField_ok_format _ _ _ _ hd (Option.mem_def.mp (Option.mem_toList.mp h4))
  · exact renderField_ok_format _ _ _ _ he (Option.mem_def.mp (Option.mem_toList.mp h5))
  · exact renderField_ok_format _ _ _ _ ho (Option.mem_def.mp (Option.mem_toList.mp h6))

/-- C3: whenever any present template field of the worker or task spec
references a variable that the run's variable map (always
`\x7brequirements\x7d`) does not bind, instruction building fails with an
error — never a silent blank — and `create_agent` creates no worker. -/
theorem c3_missing_variable (ac : AgentConfig) (tc : TaskConfig) (requirements : String)
    (tpl : Template) (v : String)
    (hmem : tpl ∈ presentTemplates ac tc)
    (hv : v ∈ templateVars tpl)
    (hu : lookupVar (varMapOf requirements) v = none) :
    (∃ m, buildInstruction ac tc requirements = Except.error m)
    ∧ ∀ (env : ImportEnv) (st : FactoryState)
        (agentsConfig : List (String × AgentConfig))
        (tasksConfig : List (String × TaskConfig)) (agentName taskName : String),
        lookupAssoc agentsConfig agentName = some ac →
        lookupAssoc tasksConfig taskName = some tc →
        ∃ m, createAgent env st agentsConfig tasksConfig agentName taskName requirements =
          Except.error m := by
  have hbuild : ∃ m, buildInstruction ac tc requirements = Except.error m := by
    cases hres : buildInstruction ac tc requirements with
    | error m => exact ⟨m, rfl⟩
    | ok s =>
      obtain ⟨r, hr⟩ := buildInstruction_ok_renders ac tc requirements s hres tpl hmem
      have hall := (formatTemplate_ok_iff (stripTemplate tpl) (varMapOf requirements)).mp ⟨r, hr⟩
      have hv' : v ∈ templateVars (stripTemplate tpl) := by
        rw [templateVars_stripTemplate]; exact hv
      have := hall v hv'
      rw [hu] at this
      exact absurd this (by simp)
  refine ⟨hbuild, ?_⟩
  intro env st agentsConfig tasksConfig agentName taskName ha ht
  obtain ⟨m0, hm0⟩ := hbuild
  cases hdesc : formatTemplate (stripTemplate (ac.role.getD [])) (varMapOf requirements) with
  | error m => exact ⟨m, by simp [createAgent, ha, ht, hdesc]⟩
  | ok d => exact ⟨m0, by simp [createAgent, ha, ht, hdesc, hm0]⟩

/-- Witness for C3 at a concrete input: a role template referencing
`\x7bnonexistent\x7d` with only `requirements` bound makes instruction
building fail. -/
theorem c3_witness :
    ∃ m, buildInstruction { role := some [TemplateTok.var "nonexistent"] } {} "r" =
      Except.error m :=
  (c3_missing_variable { role := some [TemplateTok.var "nonexistent"] } {} "r"
    [TemplateTok.var "nonexistent"] "nonexistent"
    (by simp [presentTemplates]) (by simp [templateVars]) (by rfl)).1

/-! ### Claims C1 and C10: the derived agent-task assignment map -/

/-- Spec side: the last task of the list referencing worker `w`
(if any), scanning in declaration order. -/
def lastReferencing (tasks : List (String × TaskConfig)) (w : String) : Option String :=
  tasks.foldl (fun acc p => if p.2.agent = some w then some p.1 else acc) none

theorem agentTaskMapping_lookup_general (w : String) (tasks : List (String × TaskConfig)) :
    ∀ m : List (String × String),
      lookupAssoc (tasks.foldl (fun m p =>
          match p.2.agent with
          | some agentName => updateAssoc m agentName p.1
          | none => m) m) w
        = tasks.foldl (fun acc p => if p.2.agent = some w then some p.1 else acc)
            (lookupAssoc m w) := by
  induction tasks with
  | nil => intro m; rfl
  | cons p rest ih =>
    intro m
    cases hag : p.2.agent with
    | none =>
      simp only [List.foldl_cons, hag]
      rw [if_neg (fun hh => Option.noConfusion hh)]
      exact ih m
    | some an =>
      simp only [List.foldl_cons, hag]
      by_cases hw : an = w
      · subst hw
        rw [if_pos rfl, ih (updateAssoc m an p.1), lookupAssoc_updateAssoc_self]
      · rw [if_neg (by simp [hw]), ih (updateAssoc m an p.1),
          lookupAssoc_updateAssoc_ne _ _ _ _ (fun hh => hw hh.symm)]

/-- C1 counterexample: a task configuration in which two tasks (`t1` and
`t2`) both reference worker `w`.  Building the whole team *succeeds* (no
configuration error is raised); the duplicate target is silently
accepted, refuting the claim that such a mapping always fails before
execution. -/
theorem c1_counterexample :
    createAllAgents [] ⟨[], 0⟩ [("w", {})]
        [("t1", { agent := some "w" }), ("t2", { agent := some "w" })] "r" =
      Except.ok ([("w",
        { name := "w", model := "gemini-2.0-flash-exp", description := "",
          instruction := "", tools := [], output_key := "w" })], ⟨[], 0⟩)
    ∧ ([("t1", ({ agent := some "w" } : TaskConfig)),
        ("t2", { agent := some "w" })].filter
          (fun p => decide (p.2.agent = some "w"))).length = 2 := by
  exact ⟨by rfl, by rfl⟩

/-- C1 amended: a worker referenced by more than one task is silently
accepted — the derived assignment map binds the worker to the *last* task
referencing it (Python dict last-write-wins), and team building raises no
error on account of the duplicate. -/
theorem c1_last_write_wins (tasks : List (String × TaskConfig)) (w : String) :
    lookupAssoc (agentTaskMapping tasks) w = lastReferencing tasks w := by
  unfold agentTaskMapping lastReferencing
  have h := agentTaskMapping_lookup_general w tasks []
  simpa using h

theorem lookupAssoc_isSome_iff {α : Type} (l : List (String × α)) (w : String) :
    (lookupAssoc l w).isSome ↔ ∃ p ∈ l, p.1 = w := by
  induction l with
  | nil => simp [lookupAssoc]
  | cons hd tl ih =>
    obtain ⟨k, v⟩ := hd
    by_cases hk : k = w
    · subst hk
      simp [lookupAssoc]
    · simp only [lookupAssoc, hk, if_false, ih, List.mem_cons]
      constructor
      · rintro ⟨p, hp, hpw⟩
        exact ⟨p, Or.inr hp, hpw⟩
      · rintro ⟨p, hor, hpw⟩
        rcases hor with rfl | hp
        · exact absurd hpw hk
        · exact ⟨p, hp, hpw⟩

theorem lastReferencing_isSome (w : String) : ∀ (tasks : List (String × TaskConfig))
    (acc : Option String),
    (tasks.foldl (fun acc p => if p.2.agent = some w then some p.1 else acc) acc).isSome
      ↔ (acc.isSome ∨ ∃ p ∈ tasks, p.2.agent = some w) := by
  intro tasks
  induction tasks with
  | nil => intro acc; simp
  | cons p rest ih =>
    intro acc
    simp only [List.foldl_cons]
    by_cases hag : p.2.agent = some w
    · rw [if_pos hag, ih]
      simp [hag]
    · rw [if_neg hag, ih]
      simp only [List.mem_cons]
      constructor
      · rintro (h | ⟨q, hq, hqw⟩)
        · exact Or.inl h
        · exact Or.inr ⟨q, Or.inr hq, hqw⟩
      · rintro (h | ⟨q, hor, hqw⟩)
        · exact Or.inl h
        · rcases hor with rfl | hq
          · exact absurd hqw hag
          · exact Or.inr ⟨q, hq, hqw⟩

theorem createAgentsLoop_keys (env : ImportEnv)
    (agentsConfig : List (String × AgentConfig)) (tasksConfig : List (String × TaskConfig))
    (requirements : String) :
    ∀ (pairs : List (String × String)) (acc : List (String × Agent)) (st : FactoryState)
      (m : List (String × Agent)) (st' : FactoryState),
      createAgentsLoop env agentsConfig tasksConfig requirements pairs acc st =
        Except.ok (m, st') →
      ∀ w, (lookupAssoc m w).isSome ↔
        ((lookupAssoc acc w).isSome ∨ ∃ p ∈ pairs, p.1 = w) := by
  intro pairs
  induction pairs with
  | nil =>
    intro acc st m st' h w
    simp only [createAgentsLoop, Except.ok.injEq, Prod.mk.injEq] at h
    obtain ⟨h1, h2⟩ := h
    subst h1
    simp
  | cons q rest ih =>
    intro acc st m st' h w
    obtain ⟨an, tn⟩ := q
    simp only [createAgentsLoop] at h
    cases hca : createAgent env st agentsConfig tasksConfig an tn requirements with
    | error m0 => rw [hca] at h; exact absurd h (by simp)
    | ok pr =>
      obtain ⟨ag, st1⟩ := pr
      rw [hca] at h
      rw [ih (updateAssoc acc an ag) st1 m st' h w]
      by_cases hw : an = w
      · subst hw
        rw [lookupAssoc_updateAssoc_self]
        simp only [Option.isSome_some, true_or, true_iff, List.mem_cons]
        exact Or.inr ⟨(an, tn), Or.inl rfl, rfl⟩
      · rw [lookupAssoc_updateAssoc_ne _ _ _ _ (fun hh => hw hh.symm)]
        simp only [List.mem_cons]
        constructor
        · rintro (h0 | ⟨p, hp, hpw⟩)
          · exact Or.inl h0
          · exact Or.inr ⟨p, Or.inr hp, hpw⟩
        · rintro (h0 | ⟨p, hor, hpw⟩)
          · exact Or.inl h0
          · rcases hor with rfl | hp
            · exact absurd hpw hw
            · exact Or.inr ⟨p, hp, hpw⟩

/-- C10: a task record without a worker reference is silently excluded —
the derived assignment map is unchanged by dropping agentless tasks, no
error arises from them, and the keys of a successfully returned team are
exactly the worker names referenced by at least one task. -/
theorem c10_agentless_tasks_skipped (tasks : List (String × TaskConfig)) :
    agentTaskMapping tasks = agentTaskMapping (tasks.filter (fun p => p.2.agent.isSome))
    ∧ ∀ (env : ImportEnv) (st : FactoryState) (agentsConfig : List (String × AgentConfig))
        (requirements : String) (m : List (String × Agent)) (st' : FactoryState),
        createAllAgents env st agentsConfig tasks requirements = Except.ok (m, st') →
        ∀ w, (lookupAssoc m w).isSome ↔ ∃ p ∈ tasks, p.2.agent = some w := by
  constructor
  · unfold agentTaskMapping
    have haux : ∀ (ts : List (String × TaskConfig)) (m : List (String × String)),
        ts.foldl (fun m p =>
          match p.2.agent with
          | some agentName => updateAssoc m agentName p.1
          | none => m) m =
        (ts.filter (fun p => p.2.agent.isSome)).foldl (fun m p =>
          match p.2.agent with
          | some agentName => updateAssoc m agentName p.1
          | none => m) m := by
      intro ts
      induction ts with
      | nil => intro m; rfl
      | cons p rest ih =>
        intro m
        cases hag : p.2.agent with
        | none => simp [List.foldl_cons, List.filter_cons, hag, ih]
        | some an => simp [List.foldl_cons, List.filter_cons, hag, ih]
    exact haux tasks []
  · intro env st agentsConfig requirements m st' h w
    have hkeys := createAgentsLoop_keys env agentsConfig tasks requirements
      (agentTaskMapping tasks) [] st m st' h w
    rw [hkeys]
    simp only [lookupAssoc, Option.isSome_none, Bool.false_eq_true, false_or]
    rw [← lookupAssoc_isSome_iff (agentTaskMapping tasks) w]
    unfold agentTaskMapping
    rw [agentTaskMapping_lookup_general w tasks []]
    simp only [lookupAssoc]
    rw [lastReferencing_isSome w tasks none]
    simp

/-- Witness for C10 at a concrete input: a team built from one agentless
task `t0` and one task `t1` referencing `w` succeeds, and its keys are
exactly the referenced workers. -/
theorem c10_witness :
    (lookupAssoc [("w",
      ({ name := "w", model := "gemini-2.0-flash-exp", description := "",
         instruction := "", tools := [], output_key := "w" } : Agent))] "w").isSome
    ↔ ∃ p ∈ [("t0", ({ description := some [TemplateTok.lit "d"] } : TaskConfig)),
             ("t1", { agent := some "w" })], p.2.agent = some "w" :=
  (c10_agentless_tasks_skipped
    [("t0", { description := some [TemplateTok.lit "d"] }), ("t1", { agent := some "w" })]).2
    [] ⟨[], 0⟩ [("w", {})] "r"
    [("w", { name := "w", model := "gemini-2.0-flash-exp", description := "",
             instruction := "", tools := [], output_key := "w" })] ⟨[], 0⟩ (by rfl) "w"

/-! ### Claim C2: the composed phase graph -/

/-- C2 counterexample: a valid resolved team of 1 lead + 0 tail workers.
Composition does not produce the claimed phase graph at all — it fails
with a `KeyError` on the first missing hard-coded worker name, because the
orchestrator requires exactly the four fixed roles. -/
theorem c2_counterexample :
    mkEngineeringTeam [("engineering_lead",
      { name := "engineering_lead", model := "m", description := "",
        instruction := "", tools := [], output_key := "lead" })] =
      Except.error "KeyError: backend_engineer" := by
  rfl

/-- C2 amended: for every agents dict binding the four hard-coded worker
names, composition succeeds and yields exactly one sequential head phase
holding `engineering_lead` and exactly one parallel tail phase holding
exactly the three fixed workers `backend_engineer`, `frontend_engineer`,
`test_engineer` (cardinality 3); any further resolved workers in the dict
are not placed in any phase, and a dict missing one of the four names
fails composition. -/
theorem c2_fixed_phase_graph (d : List (String × Agent)) (lead backend frontend test : Agent)
    (h1 : lookupAssoc d "engineering_lead" = some lead)
    (h2 : lookupAssoc d "backend_engineer" = some backend)
    (h3 : lookupAssoc d "frontend_engineer" = some frontend)
    (h4 : lookupAssoc d "test_engineer" = some test) :
    ∃ T, mkEngineeringTeam d = Except.ok T
      ∧ topPhases T =
          [Phase.sequentialPhase lead, Phase.parallelPhase [backend, frontend, test]] := by
  simp only [mkEngineeringTeam, h1, h2, h3, h4]
  exact ⟨_, rfl, rfl⟩

/-- Witness for C2 at a concrete input: the full four-worker team
composes into the sequential-then-parallel phase graph. -/
theorem c2_witness :
    ∃ T, mkEngineeringTeam
        [ ("engineering_lead",
           { name := "engineering_lead", model := "m", description := "",
             instruction := "", tools := [], output_key := "a" }),
          ("backend_engineer",
           { name := "backend_engineer", model := "m", description := "",
             instruction := "", tools := [], output_key := "b" }),
          ("frontend_engineer",
           { name := "frontend_engineer", model := "m", description := "",
             instruction := "", tools := [], output_key := "c" }),
          ("test_engineer",
           { name := "test_engineer", model := "m", description := "",
             instruction := "", tools := [], output_key := "d" }) ] = Except.ok T
      ∧ topPhases T =
          [Phase.sequentialPhase
            { name := "engineering_lead", model := "m", description := "",
              instruction := "", tools := [], output_key := "a" },
           Phase.parallelPhase
            [ { name := "backend_engineer", model := "m", description := "",
                instruction := "", tools := [], output_key := "b" },
              { name := "frontend_engineer", model := "m", description := "",
                instruction := "", tools := [], output_key := "c" },
              { name := "test_engineer", model := "m", description := "",
                instruction := "", tools := [], output_key := "d" } ]] :=
  c2_fixed_phase_graph _ _ _ _ _ (by rfl) (by rfl) (by rfl) (by rfl)

/-! ### Claim C8: run completion and final-output capture -/

/-- Spec side: the run's final output as the claim words it — the first
*text-carrying* part of the last terminal event carrying content. -/
def specFinalOutput (events : List Event) : Option String :=
  match lastTerminalContentEvent events with
  | none => none
  | some e => firstTextPart e

/-- Source side, spec'd independently of the loop: the text of the *first*
part (whatever kind it is) of the last terminal content-carrying event,
starting from a given capture accumulator. -/
def specCapture (acc : Option String) (events : List Event) : Option String :=
  match lastTerminalContentEvent events with
  | none => acc
  | some e =>
    match e.content with
    | some (p :: _) => p.text
    | _ => none

theorem find?_append {α : Type} (p : α → Bool) : ∀ l1 l2 : List α,
    List.find? p (l1 ++ l2) = (List.find? p l1).orElse (fun _ => List.find? p l2) := by
  intro l1 l2
  induction l1 with
  | nil => simp [List.find?, Option.orElse]
  | cons a l ih =>
    cases hpa : p a with
    | true => simp [List.find?, hpa, Option.orElse]
    | false => simp [List.find?, hpa, ih]

theorem captureFinal_ok : ∀ (events : List Event) (acc : Option String),
    (∀ e ∈ events, e.is_final = true → e.content ≠ some []) →
    captureFinal acc events = Except.ok (specCapture acc events) := by
  intro events
  induction events with
  | nil => intro acc _; rfl
  | cons e rest ih =>
    intro acc h
    have hrest : ∀ e' ∈ rest, e'.is_final = true → e'.content ≠ some [] :=
      fun e' he' => h e' (List.mem_cons_of_mem _ he')
    have hlast : lastTerminalContentEvent (e :: rest) =
        (lastTerminalContentEvent rest).orElse
          (fun _ => List.find? (fun ev => ev.is_final && ev.content.isSome) [e]) := by
      unfold lastTerminalContentEvent
      rw [List.reverse_cons, find?_append]
    cases hf : e.is_final with
    | false =>
      have hcap : captureFinal acc (e :: rest) = captureFinal acc rest := by
        simp [captureFinal, hf]
      rw [hcap, ih acc hrest]
      congr 1
      unfold specCapture
      rw [hlast]
      cases hl : lastTerminalContentEvent rest with
      | some x => rfl
      | none => simp [List.find?, hf, Option.orElse]
    | true =>
      cases hc : e.content with
      | none =>
        have hcap : captureFinal acc (e :: rest) = captureFinal acc rest := by
          simp [captureFinal, hf, hc]
        rw [hcap, ih acc hrest]
        congr 1
        unfold specCapture
        rw [hlast]
        cases hl : lastTerminalContentEvent rest with
        | some x => rfl
        | none => simp [List.find?, hf, hc, Option.orElse]
      | some parts =>
        cases parts with
        | nil => exact absurd hc (h e (List.mem_cons_self e rest) hf)
        | cons p ps =>
          have hcap : captureFinal acc (e :: rest) = captureFinal p.text rest := by
            simp [captureFinal, hf, hc]
          rw [hcap, ih p.text hrest]
          congr 1
          unfold specCapture
          rw [hlast]
          cases hl : lastTerminalContentEvent rest with
          | some x => rfl
          | none => simp [List.find?, hf, hc, Option.orElse]

/-- C8 counterexample: a terminal event whose first content part is a
function call (no text) and whose second part carries text `"hi"`.  The
code captures `parts[0].text`, i.e. nothing, while the claim ("the first
text part") predicts `"hi"` — so the run's finalOutput is empty where the
claim requires `"hi"`. -/
theorem c8_counterexample :
    runWorkflow [{ agent_name := none,
                   content := some [ { function_call := some ⟨"save_to_file", []⟩ },
                                     { text := some "hi" } ],
                   is_final := true }] =
        Except.ok { status := "completed", final_output := none }
    ∧ specFinalOutput [{ agent_name := none,
                         content := some [ { function_call := some ⟨"save_to_file", []⟩ },
                                           { text := some "hi" } ],
                         is_final := true }] = some "hi"
    ∧ (none : Option String) ≠ some "hi" := by
  exact ⟨by rfl, by rfl, by decide⟩

/-- C8 amended: provided every terminal content-carrying event has at
least one part (an empty part list crashes the loop with an `IndexError`),
the run always completes with status `completed` — the orchestrator never
surfaces a Failed status — and its finalOutput is the text of the *first
content part* of the last terminal event carrying content (empty when that
part carries no text, or when no such event was observed). -/
theorem c8_completed_last_terminal (events : List Event)
    (h : ∀ e ∈ events, e.is_final = true → e.content ≠ some []) :
    runWorkflow events =
      Except.ok { status := "completed", final_output := specCapture none events } := by
  unfold runWorkflow
  rw [captureFinal_ok events none h]

/-- Witness for C8 at a concrete input: a single terminal text event
completes with its text as finalOutput. -/
theorem c8_witness :
    runWorkflow [{ agent_name := some "A", content := some [{ text := some "done" }],
                   is_final := true }] =
      Except.ok { status := "completed", final_output := some "done" } :=
  (c8_completed_last_terminal
    [{ agent_name := some "A", content := some [{ text := some "done" }],
       is_final := true }] (by simp)).trans (by rfl)

end EngTeam
